import Mathlib

/-!
Verification of the snapshot-diff reconciliation engine of the
player-prop line tracker (`src/app.py`).

The Python source is shallowly embedded below:

* raw odds payloads (event → bookmaker → market → outcome) become nested
  structures; a JSON field that the source reads with bracket access
  (`outcome['point']`, which raises `KeyError` when the key is absent) is
  modelled as an `Option`, and fallible code returns `Except String`;
* Python floats carrying betting lines are modelled as `ℚ` (every value the
  provider emits is an exact decimal);
* Python dicts built by comprehension are modelled as association lists with
  insertion-order semantics (`pyDictInsert`), and Python's stable `list.sort`
  as a stable insertion sort (`stableSort`);
* `None` line values are `Option.none`; the `'-'` "no quote" sentinel for a
  missing Under price is `Quote.dash`; a Python `TypeError` raised by
  `None - x` is an `Except.error`.
-/

/-- `TARGET_BOOKMAKER_KEY = 'draftkings'` from the configuration block. -/
def TARGET_BOOKMAKER_KEY : String := "draftkings"

/-- The fixed market priority list `MARKET_ORDER` from the configuration
block. -/
def MARKET_ORDER : List String :=
  ["player_points", "player_rebounds", "player_assists",
   "player_points_rebounds_assists", "player_points_rebounds",
   "player_points_assists", "player_rebounds_assists"]

/-- `TOTALS_MARKET = 'totals'`. -/
def TOTALS_MARKET : String := "totals"

/-- One side of a raw market (`RawOutcome`).  `name` and `price` are always
present in provider payloads and are modelled as plain fields;
`description` is absent on totals outcomes (bracket access would raise
`KeyError`), hence `Option String`; `point` is `none` when the key is
absent (bracket access raises `KeyError`) and `some none` when the stored
value is JSON null (Python `None`). -/
structure RawOutcome where
  name : String
  description : Option String
  point : Option (Option ℚ)
  price : ℚ
deriving DecidableEq

/-- One betable market within a bookmaker quote (`RawMarket`). -/
structure RawMarket where
  key : String
  outcomes : List RawOutcome
deriving DecidableEq

/-- One bookmaker's view of an event (`RawBookmakerQuote`). -/
structure RawBookmaker where
  key : String
  title : String
  markets : List RawMarket
deriving DecidableEq

/-- One raw event (`RawEvent`); `home_team` / `away_team` are read with
`game.get(..., 'Unknown')`, hence `Option String` here with the default
applied at the read site. -/
structure Game where
  home_team : Option String
  away_team : Option String
  bookmakers : List RawBookmaker
deriving DecidableEq

/-- An Under price: either a quoted decimal price or the `'-'` "no quote"
sentinel used when the market has no Under outcome. -/
inductive Quote where
  | val (p : ℚ)
  | dash
deriving DecidableEq

/-- The flat record produced by `flatten_data` for one Over outcome of one
player-prop market (the dict literal at `src/app.py:244-254`). -/
structure FlatRecord where
  player : String
  market_key : String
  line : Option ℚ
  over : ℚ
  under : Quote
  book : String
  home_team : String
  away_team : String
  matchup : String
deriving DecidableEq

/-- The flat record produced by `flatten_totals_data` for one Over outcome
of a game-totals market (the dict literal at `src/app.py:279-288`). -/
structure TotalsRecord where
  matchup : String
  market_key : String
  line : Option ℚ
  over : ℚ
  under : Quote
  book : String
  home_team : String
  away_team : String
deriving DecidableEq

/-- `next((o for o in market['outcomes'] if o['name'] == 'Under'), None)`
followed by `under_outcome['price'] if under_outcome else '-'`. -/
def underQuote (outcomes : List RawOutcome) : Quote :=
  match outcomes.find? (fun o => o.name = "Under") with
  | some u => Quote.val u.price
  | none => Quote.dash

/-- Builds the flat dict for one Over outcome of a props market
(`src/app.py:240-254`): reads `outcome['description']` and
`outcome['point']` with bracket access (absent key = `KeyError`), pairs the
first Under outcome's price or the `'-'` sentinel. -/
def overRecord (home away title mkey : String) (outcomes : List RawOutcome)
    (o : RawOutcome) : Except String FlatRecord :=
  match o.description with
  | none => Except.error "KeyError: description"
  | some desc =>
    match o.point with
    | none => Except.error "KeyError: point"
    | some pt =>
      Except.ok
        { player := desc, market_key := mkey, line := pt, over := o.price,
          under := underQuote outcomes, book := title, home_team := home,
          away_team := away, matchup := away ++ " @ " ++ home }

/-- The inner outcome loop of `flatten_data`: `for outcome in
market.get('outcomes', []): if outcome['name'] == 'Over': ...append(...)`.
The first list argument is the full outcome list of the market (searched
for the Under side), the second is the remaining iteration suffix. -/
def flattenOutcomes (home away title mkey : String) (all : List RawOutcome) :
    List RawOutcome → Except String (List FlatRecord)
  | [] => Except.ok []
  | o :: rest =>
    if o.name = "Over" then do
      let r ← overRecord home away title mkey all o
      let rs ← flattenOutcomes home away title mkey all rest
      Except.ok (r :: rs)
    else flattenOutcomes home away title mkey all rest

/-- The per-market step of `flatten_data` (`src/app.py:237-254`); note the
source applies no filter on `market['key']` here. -/
def flattenMarket (home away title : String) (m : RawMarket) :
    Except String (List FlatRecord) :=
  flattenOutcomes home away title m.key m.outcomes m.outcomes

/-- The market loop of `flatten_data`. -/
def flattenMarkets (home away title : String) :
    List RawMarket → Except String (List FlatRecord)
  | [] => Except.ok []
  | m :: rest => do
    let a ← flattenMarket home away title m
    let b ← flattenMarkets home away title rest
    Except.ok (a ++ b)

/-- The bookmaker loop of `flatten_data` (`src/app.py:234-254`): every
bookmaker key is collected into the observed set; only the target
bookmaker's markets are flattened.  The observed set is modelled by the
list of insertions. -/
def flattenBooks (home away : String) :
    List RawBookmaker → Except String (List FlatRecord × List String)
  | [] => Except.ok ([], [])
  | b :: rest =>
    if b.key = TARGET_BOOKMAKER_KEY then do
      let recs ← flattenMarkets home away b.title b.markets
      let pr ← flattenBooks home away rest
      Except.ok (recs ++ pr.1, b.key :: pr.2)
    else do
      let pr ← flattenBooks home away rest
      Except.ok (pr.1, b.key :: pr.2)

/-- The game loop of `flatten_data` (`src/app.py:230-254`). -/
def flattenGames : List Game → Except String (List FlatRecord × List String)
  | [] => Except.ok ([], [])
  | g :: rest => do
    let p1 ← flattenBooks (g.home_team.getD "Unknown") (g.away_team.getD "Unknown")
      g.bookmakers
    let p2 ← flattenGames rest
    Except.ok (p1.1 ++ p2.1, p1.2 ++ p2.2)

/-- `flatten_data` (`src/app.py:225-255`): flattens a props payload into
FlatRecords plus the observed bookmaker keys. -/
def flatten_data (games : List Game) : Except String (List FlatRecord × List String) :=
  flattenGames games

/-- Builds the flat dict for one Over outcome of the totals market
(`src/app.py:274-288`); totals outcomes carry no description, the matchup
string is the subject. -/
def overTotalsRecord (home away matchup title : String) (outcomes : List RawOutcome)
    (o : RawOutcome) : Except String TotalsRecord :=
  match o.point with
  | none => Except.error "KeyError: point"
  | some pt =>
    Except.ok
      { matchup := matchup, market_key := "totals", line := pt, over := o.price,
        under := underQuote outcomes, book := title, home_team := home,
        away_team := away }

/-- The inner outcome loop of `flatten_totals_data`. -/
def flattenTotalsOutcomes (home away matchup title : String) (all : List RawOutcome) :
    List RawOutcome → Except String (List TotalsRecord)
  | [] => Except.ok []
  | o :: rest =>
    if o.name = "Over" then do
      let r ← overTotalsRecord home away matchup title all o
      let rs ← flattenTotalsOutcomes home away matchup title all rest
      Except.ok (r :: rs)
    else flattenTotalsOutcomes home away matchup title all rest

/-- The market loop of `flatten_totals_data` (`src/app.py:271-288`):
markets whose key is not `'totals'` are skipped (`continue`). -/
def flattenTotalsMarkets (home away matchup title : String) :
    List RawMarket → Except String (List TotalsRecord)
  | [] => Except.ok []
  | m :: rest =>
    if m.key ≠ "totals" then flattenTotalsMarkets home away matchup title rest
    else do
      let a ← flattenTotalsOutcomes home away matchup title m.outcomes m.outcomes
      let b ← flattenTotalsMarkets home away matchup title rest
      Except.ok (a ++ b)

/-- The bookmaker loop of `flatten_totals_data`. -/
def flattenTotalsBooks (home away matchup : String) :
    List RawBookmaker → Except String (List TotalsRecord × List String)
  | [] => Except.ok ([], [])
  | b :: rest =>
    if b.key = TARGET_BOOKMAKER_KEY then do
      let recs ← flattenTotalsMarkets home away matchup b.title b.markets
      let pr ← flattenTotalsBooks home away matchup rest
      Except.ok (recs ++ pr.1, b.key :: pr.2)
    else do
      let pr ← flattenTotalsBooks home away matchup rest
      Except.ok (pr.1, b.key :: pr.2)

/-- The game loop of `flatten_totals_data` (`src/app.py:263-288`); the
matchup string `f"{away_team} @ {home_team}"` is computed once per game. -/
def flattenTotalsGames : List Game → Except String (List TotalsRecord × List String)
  | [] => Except.ok ([], [])
  | g :: rest => do
    let home := g.home_team.getD "Unknown"
    let away := g.away_team.getD "Unknown"
    let p1 ← flattenTotalsBooks home away (away ++ " @ " ++ home) g.bookmakers
    let p2 ← flattenTotalsGames rest
    Except.ok (p1.1 ++ p2.1, p1.2 ++ p2.2)

/-- `flatten_totals_data` (`src/app.py:257-289`). -/
def flatten_totals_data (games : List Game) :
    Except String (List TotalsRecord × List String) :=
  flattenTotalsGames games

/-- Python dict assignment `m[k] = v` on an insertion-ordered dict: an
existing key keeps its position and gets the new value, a new key is
appended. -/
def pyDictInsert (m : List (String × α)) (k : String) (v : α) :
    List (String × α) :=
  if m.any (fun p => p.1 = k) then
    m.map (fun p => if p.1 = k then (p.1, v) else p)
  else m ++ [(k, v)]

/-- A Python dict comprehension `{key(x): x for x in flat}`: insertion
order with later duplicates overwriting earlier values in place. -/
def pyDictOfList (key : α → String) (flat : List α) : List (String × α) :=
  flat.foldl (fun m x => pyDictInsert m (key x) x) []

/-- Python `m[k]` / `k in m` on the association-list model of a dict. -/
def dictGet (k : String) : List (String × α) → Option α
  | [] => none
  | (k', v) :: rest => if k = k' then some v else dictGet k rest

/-- The identity key for a player-prop record:
`f"{x['player']}|{x['market_key']}"` (`src/app.py:475-476`).  Note the
source applies no whitespace trimming to the player string. -/
def propKey (x : FlatRecord) : String := x.player ++ "|" ++ x.market_key

/-- `pre_map = {f"{x['player']}|{x['market_key']}": x for x in pre_flat}`. -/
def buildPropsMap (flat : List FlatRecord) : List (String × FlatRecord) :=
  pyDictOfList propKey flat

/-- `pre_map = {x['matchup']: x for x in pre_flat}` (totals mode,
`src/app.py:425-426`). -/
def buildTotalsMap (flat : List TotalsRecord) : List (String × TotalsRecord) :=
  pyDictOfList TotalsRecord.matchup flat

/-- A value shown in the live/pre line columns of a result row: a number,
Python `None`, or the `"No Live Game"` placeholder string. -/
inductive LineDisp where
  | num (r : ℚ)
  | null
  | text (s : String)
deriving DecidableEq

/-- Python value-to-display coercion for a nullable line. -/
def dispOfOpt : Option ℚ → LineDisp
  | some r => LineDisp.num r
  | none => LineDisp.null

/-- A result row of the props modes: the spread source record
(`{**live_item, ...}` or `{**pre_item, ...}`) plus the display fields. -/
structure ResultRow where
  item : FlatRecord
  live_display : LineDisp
  pre_display : LineDisp
  diff : ℚ
  status : String
deriving DecidableEq

/-- The row appended by the scanner and by the active branch of search:
`{**live_item, "live_display": live_item['line'], "pre_display":
pre_item['line'], "diff": diff, "status": "active"}`. -/
def mkActiveRow (liveI : FlatRecord) (ll pl : ℚ) : ResultRow :=
  { item := liveI, live_display := LineDisp.num ll, pre_display := LineDisp.num pl,
    diff := ll - pl, status := "active" }

/-- The row appended by the inactive branch of search: `{**pre_item,
"live_display": "No Live Game", "pre_display": pre_item['line'],
"diff": 0, "status": "inactive"}`. -/
def mkInactiveRow (preI : FlatRecord) : ResultRow :=
  { item := preI, live_display := LineDisp.text "No Live Game",
    pre_display := dispOfOpt preI.line, diff := 0, status := "inactive" }

/-- The Market Scanner loop (`src/app.py:483-495`): iterate the live map;
for each key also present in the pre map with both lines non-null, compute
the diff and append the row when `abs(diff) >= threshold`. -/
def scannerLoop (pre_map : List (String × FlatRecord)) (threshold : ℚ) :
    List (String × FlatRecord) → List ResultRow
  | [] => []
  | (k, liveI) :: rest =>
    (match dictGet k pre_map with
     | some preI =>
       match liveI.line, preI.line with
       | some ll, some pl =>
         if threshold ≤ |ll - pl| then [mkActiveRow liveI ll pl] else []
       | _, _ => []
     | none => []) ++ scannerLoop pre_map threshold rest

/-- Scanner-mode results (before the display sort). -/
def scanner_results (pre_map live_map : List (String × FlatRecord))
    (threshold : ℚ) : List ResultRow :=
  scannerLoop pre_map threshold live_map

/-- Python `s.lower()` restricted to the ASCII names this app handles,
as a character list. -/
def lowerChars (s : String) : List Char := s.data.map Char.toLower

/-- Whether `needle` is a prefix of `hay`. -/
def charPrefix : List Char → List Char → Bool
  | [], _ => true
  | _ :: _, [] => false
  | a :: as, b :: bs => a = b && charPrefix as bs

/-- Python substring containment `needle in hay` on character lists. -/
def hasSubstring (needle hay : List Char) : Bool :=
  charPrefix needle hay ||
    match hay with
    | [] => false
    | _ :: t => hasSubstring needle t

/-- The Player Search loop body (`src/app.py:500-520`): for a pre-map
entry whose player contains the query case-insensitively, attach the live
counterpart with `diff = live_item['line'] - pre_item['line']` (a Python
`TypeError` when either operand is `None` — the source has no null guard
here), or an inactive placeholder row when no live counterpart exists. -/
def searchLoop (live_map : List (String × FlatRecord)) (q : String) :
    List (String × FlatRecord) → Except String (List ResultRow)
  | [] => Except.ok []
  | (k, preI) :: rest =>
    if hasSubstring (lowerChars q) (lowerChars preI.player) then
      match dictGet k live_map with
      | some liveI =>
        match liveI.line, preI.line with
        | some ll, some pl => do
          let rs ← searchLoop live_map q rest
          Except.ok (mkActiveRow liveI ll pl :: rs)
        | _, _ => Except.error "TypeError: unsupported operand type(s) for -"
      | none => do
        let rs ← searchLoop live_map q rest
        Except.ok (mkInactiveRow preI :: rs)
    else searchLoop live_map q rest

/-- Player Search mode (`src/app.py:497-520`): the loop only runs for a
non-empty query (`if search_query:`); an empty query leaves the result
list empty. -/
def search_results (pre_map live_map : List (String × FlatRecord))
    (q : String) : Except String (List ResultRow) :=
  if q = "" then Except.ok [] else searchLoop live_map q pre_map

/-- A result row of Game Totals mode. -/
structure TotalsRow where
  item : TotalsRecord
  live_display : ℚ
  pre_display : ℚ
  diff : ℚ
  status : String
deriving DecidableEq

/-- The row appended by the totals loop (`src/app.py:435-441`). -/
def mkTotalsRow (liveI : TotalsRecord) (ll pl : ℚ) : TotalsRow :=
  { item := liveI, live_display := ll, pre_display := pl, diff := ll - pl,
    status := "active" }

/-- The Game Totals loop (`src/app.py:429-441`): same join as the scanner
but keyed by matchup. -/
def totalsLoop (pre_map : List (String × TotalsRecord)) (threshold : ℚ) :
    List (String × TotalsRecord) → List TotalsRow
  | [] => []
  | (k, liveI) :: rest =>
    (match dictGet k pre_map with
     | some preI =>
       match liveI.line, preI.line with
       | some ll, some pl =>
         if threshold ≤ |ll - pl| then [mkTotalsRow liveI ll pl] else []
       | _, _ => []
     | none => []) ++ totalsLoop pre_map threshold rest

/-- Totals-mode results (before the display sort). -/
def totals_results (pre_map live_map : List (String × TotalsRecord))
    (threshold : ℚ) : List TotalsRow :=
  totalsLoop pre_map threshold live_map

/-- Stable insertion of an element into a sorted list: the element goes in
front of the first position it compares `le` to, so earlier-listed
elements stay in front on ties. -/
def insertSorted (le : α → α → Bool) (a : α) : List α → List α
  | [] => [a]
  | b :: bs => if le a b then a :: b :: bs else b :: insertSorted le a bs

/-- A stable sort, modelling Python's stable `list.sort(key=...)`. -/
def stableSort (le : α → α → Bool) : List α → List α
  | [] => []
  | x :: xs => insertSorted le x (stableSort le xs)

/-- Python code-point comparison `s < t` on character lists (strict
lexicographic order, as tuple sort keys compare in CPython). -/
def charListLt : List Char → List Char → Bool
  | [], [] => false
  | [], _ :: _ => true
  | _ :: _, [] => false
  | a :: as, b :: bs => if a = b then charListLt as bs else decide (a < b)

/-- Position of `k` in a market list, if present. -/
def marketIdxAux (k : String) : List String → Option ℕ
  | [] => none
  | m :: rest => if m = k then some 0 else (marketIdxAux k rest).map (· + 1)

/-- `MARKET_ORDER.index(k)` guarded by `k in MARKET_ORDER`, with the `99`
fallback for unknown market keys (`src/app.py:565`). -/
def marketIdx (k : String) : ℕ :=
  (marketIdxAux k MARKET_ORDER).getD 99

/-- The props display sort key comparison, i.e. ascending comparison of
the Python tuples `(x['player'], MARKET_ORDER.index(x['market_key']) ...)`
from `src/app.py:563-566`. -/
def propsRowLe (a b : ResultRow) : Bool :=
  charListLt a.item.player.data b.item.player.data ||
    (a.item.player = b.item.player &&
      marketIdx a.item.market_key ≤ marketIdx b.item.market_key)

/-- `results_list.sort(key=lambda x: (x['player'], MARKET_ORDER.index(...)
if ... else 99))` — the display sort applied to both props modes
(scanner and search). -/
def sortPropsResults (rows : List ResultRow) : List ResultRow :=
  stableSort propsRowLe rows

/-- The totals display sort comparison: descending absolute diff.
CPython's `sort(key=..., reverse=True)` is a stable descending sort, which
an ascending stable sort under the reversed comparison reproduces. -/
def totalsRowLe (a b : TotalsRow) : Bool :=
  decide (|b.diff| ≤ |a.diff|)

/-- `results_list.sort(key=lambda x: abs(x['diff']), reverse=True)` —
the totals display sort (`src/app.py:447`). -/
def sortTotalsResults (rows : List TotalsRow) : List TotalsRow :=
  stableSort totalsRowLe rows

/-- The current snapshot payload shape: `{"props": [...], "totals": [...]}`
holding the raw per-game API responses. -/
structure SnapData where
  props : List Game
  totals : List Game
deriving DecidableEq

/-- A stored snapshot object (a JSON dict): `last_updated` is read with
`.get` (absent → `None`), while `games` / `data` presence is tested with
`in` before bracket access, so each is an `Option` whose `none` means the
key is absent. -/
structure StoredObj where
  last_updated : Option String
  games : Option (List Game)
  data : Option SnapData
deriving DecidableEq

/-- The downloaded snapshot content: either a bare JSON list (the very old
format) or a JSON object. -/
inductive StoredContent where
  | asList (events : List Game)
  | asObj (o : StoredObj)
deriving DecidableEq

/-- The shape-dispatch of `load_snapshot_from_drive` (`src/app.py:93-104`)
after the Drive download: `isinstance(content, list)`, then
`"games" in content`, then `"data" in content`, else `(None, None)`. -/
def load_snapshot_normalize : StoredContent → Option String × Option SnapData
  | StoredContent.asList l => (some "No Data", some { props := l, totals := [] })
  | StoredContent.asObj o =>
    match o.games with
    | some g => (o.last_updated, some { props := g, totals := [] })
    | none =>
      match o.data with
      | some d => (o.last_updated, some d)
      | none => (none, none)

/-- Whether `y` is a Gregorian leap year (as `datetime` validates dates). -/
def isLeapYear (y : ℕ) : Bool :=
  y % 4 = 0 && (y % 100 ≠ 0 || y % 400 = 0)

/-- Days in month `m` of year `y` (1-based month). -/
def daysInMonth (y m : ℕ) : ℕ :=
  if m = 2 then (if isLeapYear y then 29 else 28)
  else if m = 4 || m = 6 || m = 9 || m = 11 then 30
  else 31

/-- Days from the Unix epoch to civil date `y-m-d` (valid Gregorian date,
`y ≥ 1` as `datetime.MINYEAR = 1`); the standard days-from-civil
computation. -/
def daysFromCivil (y m d : ℕ) : Int :=
  let y' := if m ≤ 2 then y - 1 else y
  let era := y' / 400
  let yoe := y' % 400
  let mp := (m + 9) % 12
  let doy := (153 * mp + 2) / 5 + d - 1
  let doe := yoe * 365 + yoe / 4 - yoe / 100 + doy
  (era * 146097 + doe : Int) - 719468

/-- The numeric value of a decimal digit character, if it is one. -/
def digitVal (c : Char) : Option ℕ :=
  if c.isDigit then some (c.toNat - 48) else none

/-- Combines two digit characters into a two-digit number. -/
def twoDigits (a b : Char) : Option ℕ := do
  let x ← digitVal a
  let y ← digitVal b
  pure (10 * x + y)

/-- Models `datetime.strptime(s, '%Y-%m-%dT%H:%M:%SZ')` on the zero-padded
timestamps the odds provider emits, returning Unix epoch seconds; any
string not of that shape (or not a valid calendar date/time) is a parse
failure (`ValueError`). -/
def parseDT (s : String) : Option Int :=
  match s.data with
  | [y1, y2, y3, y4, c1, m1, m2, c2, d1, d2, c3, h1, h2, c4, n1, n2, c5, s1, s2, c6] =>
    if c1 = '-' && c2 = '-' && c3 = 'T' && c4 = ':' && c5 = ':' && c6 = 'Z' then do
      let yh ← twoDigits y1 y2
      let yl ← twoDigits y3 y4
      let y := 100 * yh + yl
      let m ← twoDigits m1 m2
      let d ← twoDigits d1 d2
      let h ← twoDigits h1 h2
      let mi ← twoDigits n1 n2
      let sec ← twoDigits s1 s2
      if 1 ≤ y ∧ 1 ≤ m ∧ m ≤ 12 ∧ 1 ≤ d ∧ d ≤ daysInMonth y m ∧
          h ≤ 23 ∧ mi ≤ 59 ∧ sec ≤ 59 then
        pure (daysFromCivil y m d * 86400 + h * 3600 + mi * 60 + sec)
      else none
    else none
  | _ => none

/-- One event dict from the events endpoint, as consumed by
`filter_upcoming_games`; `commence_time` is read with bracket access
inside the `try`, so an absent key takes the `except` path. -/
structure SportEvent where
  id : String
  commence_time : Option String
deriving DecidableEq

/-- The loop of `filter_upcoming_games` (`src/app.py:139-149`): parse the
start time, keep the game when `0 <= time_until <= hours_ahead` in hours;
any exception (missing key or unparseable time) keeps the game "to be
safe". -/
def filterUpcomingLoop (now hours_ahead : ℚ) : List SportEvent → List SportEvent
  | [] => []
  | g :: rest =>
    (match g.commence_time with
     | none => [g]
     | some s =>
       match parseDT s with
       | none => [g]
       | some t =>
         if 0 ≤ ((t : ℚ) - now) / 3600 ∧ ((t : ℚ) - now) / 3600 ≤ hours_ahead
         then [g] else []) ++
      filterUpcomingLoop now hours_ahead rest

/-- `filter_upcoming_games` (`src/app.py:131-151`): `datetime.utcnow()` is
passed in as `now` (epoch seconds); a `None` or empty games argument
yields `[]` via the `if not games:` guard. -/
def filter_upcoming_games (now : ℚ) (games : Option (List SportEvent))
    (hours_ahead : ℚ) : List SportEvent :=
  match games with
  | none => []
  | some gs => if gs.isEmpty then [] else filterUpcomingLoop now hours_ahead gs

/-! Helper lemmas about the embedded operations. -/

theorem underQuote_dash_of_no_under (outcomes : List RawOutcome)
    (h : ∀ o ∈ outcomes, o.name ≠ "Under") : underQuote outcomes = Quote.dash := by
  unfold underQuote
  rw [List.find?_eq_none.mpr]
  intro o ho
  simpa using h o ho

theorem flattenOutcomes_no_over (home away title mkey : String)
    (all rest : List RawOutcome) (h : ∀ o ∈ rest, o.name ≠ "Over") :
    flattenOutcomes home away title mkey all rest = Except.ok [] := by
  induction rest with
  | nil => rfl
  | cons o t ih =>
    have ho : o.name ≠ "Over" := h o (List.mem_cons_self o t)
    simp only [flattenOutcomes, if_neg ho]
    exact ih fun x hx => h x (List.mem_cons_of_mem o hx)

theorem flattenOutcomes_wf (home away title mkey : String)
    (all : List RawOutcome) :
    ∀ rest : List RawOutcome,
      (∀ o ∈ rest, o.name = "Over" → o.description ≠ none ∧ o.point ≠ none) →
      ∃ recs, flattenOutcomes home away title mkey all rest = Except.ok recs ∧
        recs.length = (rest.filter (fun o => o.name = "Over")).length ∧
        ∀ r ∈ recs, r.under = underQuote all := by
  intro rest
  induction rest with
  | nil => exact fun _ => ⟨[], rfl, rfl, by simp⟩
  | cons o t ih =>
    intro h
    obtain ⟨recs, hok, hlen, hund⟩ :=
      ih fun x hx => h x (List.mem_cons_of_mem o hx)
    by_cases ho : o.name = "Over"
    · obtain ⟨hd, hp⟩ := h o (List.mem_cons_self o t) ho
      obtain ⟨d, hd'⟩ := Option.ne_none_iff_exists'.mp hd
      obtain ⟨p, hp'⟩ := Option.ne_none_iff_exists'.mp hp
      refine ⟨FlatRecord.mk d mkey p o.price (underQuote all) title home away
        (away ++ " @ " ++ home) :: recs, ?_, ?_, ?_⟩
      · simp only [flattenOutcomes, if_pos ho, overRecord, hd', hp', hok]
        rfl
      · simp [List.filter_cons, ho, hlen]
      · intro r hr
        rcases List.mem_cons.mp hr with rfl | hr
        · rfl
        · exact hund r hr
    · refine ⟨recs, ?_, ?_, hund⟩
      · simp only [flattenOutcomes, if_neg ho, hok]
      · simp [List.filter_cons, ho, hlen]

/-- C8: for every market containing an "Over" outcome but no "Under"
outcome, flattening produces one FlatRecord per Over outcome with the
under price set to the `'-'` "no quote" sentinel and raises no error
(provided the Over outcomes carry their description and point fields,
whose absence is a separate `KeyError` condition); a market with no
"Over" outcome contributes zero FlatRecords. -/
theorem missing_under_tolerated :
    (∀ (home away title : String) (m : RawMarket),
      (∀ o ∈ m.outcomes, o.name ≠ "Under") →
      (∀ o ∈ m.outcomes, o.name = "Over" → o.description ≠ none ∧ o.point ≠ none) →
      ∃ recs, flattenMarket home away title m = Except.ok recs ∧
        recs.length = (m.outcomes.filter (fun o => o.name = "Over")).length ∧
        ∀ r ∈ recs, r.under = Quote.dash) ∧
    (∀ (home away title : String) (m : RawMarket),
      (∀ o ∈ m.outcomes, o.name ≠ "Over") →
      flattenMarket home away title m = Except.ok []) := by
  constructor
  · intro home away title m hU hwf
    obtain ⟨recs, hok, hlen, hund⟩ :=
      flattenOutcomes_wf home away title m.key m.outcomes m.outcomes hwf
    exact ⟨recs, hok, hlen, fun r hr =>
      (hund r hr).trans (underQuote_dash_of_no_under _ hU)⟩
  · intro home away title m h
    exact flattenOutcomes_no_over _ _ _ _ _ _ h

/-- Witness for C8 at a concrete Over-only market. -/
theorem missing_under_tolerated_witness :
    ∃ recs, flattenMarket "H" "A" "DraftKings"
        (RawMarket.mk "player_points"
          [RawOutcome.mk "Over" (some "Player X") (some (some 24.5)) 1.91]) =
      Except.ok recs ∧
      recs.length = ((RawMarket.mk "player_points"
        [RawOutcome.mk "Over" (some "Player X") (some (some 24.5)) 1.91]).outcomes.filter
          (fun o => o.name = "Over")).length ∧
      ∀ r ∈ recs, r.under = Quote.dash :=
  missing_under_tolerated.1 "H" "A" "DraftKings"
    (RawMarket.mk "player_points"
      [RawOutcome.mk "Over" (some "Player X") (some (some 24.5)) 1.91])
    (by decide) (by decide)

/-- An Over outcome whose `point` key is absent entirely. -/
def c5Games : List Game :=
  [Game.mk (some "H") (some "A")
    [RawBookmaker.mk "draftkings" "DraftKings"
      [RawMarket.mk "player_points"
        [RawOutcome.mk "Over" (some "Player X") none 1.91]]]]

/-- C5 counterexample: an outcome with no `point` key at all does not
flatten to a null-line record — bracket access `outcome['point']` raises
`KeyError`, so flattening errors instead. -/
theorem missing_point_key_is_error :
    flatten_data c5Games = Except.error "KeyError: point" := rfl

/-- C5 (amended): an outcome whose `point` is present but null is
permitted and flattens to a FlatRecord whose line is null; only an
outcome lacking the `point` key entirely raises `KeyError`. -/
theorem null_point_gives_null_line :
    (∀ (home away title mkey d : String) (pr : ℚ) (outcomes : List RawOutcome),
      overRecord home away title mkey outcomes
          (RawOutcome.mk "Over" (some d) (some none) pr) =
        Except.ok (FlatRecord.mk d mkey none pr (underQuote outcomes) title home away
          (away ++ " @ " ++ home))) ∧
    (∀ (h a t d : String) (pr : ℚ),
      flatten_data [Game.mk (some h) (some a)
          [RawBookmaker.mk TARGET_BOOKMAKER_KEY t
            [RawMarket.mk "player_points"
              [RawOutcome.mk "Over" (some d) (some none) pr]]]] =
        Except.ok ([FlatRecord.mk d "player_points" none pr Quote.dash t h a
          (a ++ " @ " ++ h)], [TARGET_BOOKMAKER_KEY])) :=
  ⟨fun _ _ _ _ _ _ _ => rfl, fun _ _ _ _ _ => rfl⟩

/-- Keeps only the `'totals'` markets of every bookmaker quote. -/
def restrictToTotals (games : List Game) : List Game :=
  games.map (fun g => Game.mk g.home_team g.away_team
    (g.bookmakers.map (fun b => RawBookmaker.mk b.key b.title
      (b.markets.filter (fun m => m.key = "totals")))))

theorem flattenTotalsMarkets_filter (home away mu title : String)
    (ms : List RawMarket) :
    flattenTotalsMarkets home away mu title (ms.filter (fun m => m.key = "totals")) =
      flattenTotalsMarkets home away mu title ms := by
  induction ms with
  | nil => rfl
  | cons m rest ih =>
    by_cases hk : m.key = "totals"
    · rw [List.filter_cons_of_pos (by simpa using hk)]
      simp only [flattenTotalsMarkets, if_neg (not_not.mpr hk), ih]
    · rw [List.filter_cons_of_neg (by simpa using hk)]
      simp only [flattenTotalsMarkets, if_pos hk, ih]

theorem flattenTotalsBooks_restrict (home away mu : String)
    (bs : List RawBookmaker) :
    flattenTotalsBooks home away mu
        (bs.map (fun b => RawBookmaker.mk b.key b.title
          (b.markets.filter (fun m => m.key = "totals")))) =
      flattenTotalsBooks home away mu bs := by
  induction bs with
  | nil => rfl
  | cons b rest ih =>
    simp only [List.map_cons, flattenTotalsBooks, flattenTotalsMarkets_filter, ih]

theorem flattenTotalsGames_restrict (games : List Game) :
    flattenTotalsGames (restrictToTotals games) = flattenTotalsGames games := by
  unfold restrictToTotals
  induction games with
  | nil => rfl
  | cons g rest ih =>
    simp only [List.map_cons, flattenTotalsGames, flattenTotalsBooks_restrict, ih]

/-- The target bookmaker quoting both a player-props market and a totals
market in a single props payload. -/
def c6Games : List Game :=
  [Game.mk (some "H") (some "A")
    [RawBookmaker.mk "draftkings" "DraftKings"
      [RawMarket.mk "player_points"
        [RawOutcome.mk "Over" (some "Player X") (some (some 24.5)) 1.91],
       RawMarket.mk "totals"
        [RawOutcome.mk "Over" (some "A @ H") (some (some 224.5)) 1.9]]]]

/-- C6 counterexample: `flatten_data` (the props-mode normalizer) does not
exclude the `'totals'` market — a bookmaker quote carrying both a
player-prop market and a totals market yields a flattened record for the
totals market as well. -/
theorem props_flatten_keeps_totals_market :
    Except.map (fun p => p.1.map FlatRecord.market_key) (flatten_data c6Games) =
      Except.ok ["player_points", "totals"] := rfl

/-- C6 (amended): in totals mode only markets whose key is `'totals'` are
processed (removing every other market changes nothing), but in props mode
`flatten_data` applies no market-key filter at all: a market with any key,
including `'totals'`, is flattened like any other. -/
theorem market_mode_filtering_amended :
    (∀ games : List Game,
      flatten_totals_data games = flatten_totals_data (restrictToTotals games)) ∧
    (∀ (h a t mk d : String) (p : Option ℚ) (pr : ℚ),
      flatten_data [Game.mk (some h) (some a)
          [RawBookmaker.mk TARGET_BOOKMAKER_KEY t
            [RawMarket.mk mk [RawOutcome.mk "Over" (some d) (some p) pr]]]] =
        Except.ok ([FlatRecord.mk d mk p pr Quote.dash t h a (a ++ " @ " ++ h)],
          [TARGET_BOOKMAKER_KEY])) :=
  ⟨fun games => (flattenTotalsGames_restrict games).symm,
   fun _ _ _ _ _ _ _ => rfl⟩

/-- C7: the snapshot loader accepts all three legacy stored shapes — a
bare list, an object with a `games` key, and an object with a `data` key
holding props and totals sublists — and normalizes each to the current
shape (a timestamp plus props and totals lists); an object with neither
key yields the null result `(None, None)`. -/
theorem snapshot_loader_accepts_legacy_shapes :
    (∀ l : List Game,
      load_snapshot_normalize (StoredContent.asList l) =
        (some "No Data", some (SnapData.mk l []))) ∧
    (∀ (lu : Option String) (g : List Game) (d : Option SnapData),
      load_snapshot_normalize (StoredContent.asObj (StoredObj.mk lu (some g) d)) =
        (lu, some (SnapData.mk g []))) ∧
    (∀ (lu : Option String) (d : SnapData),
      load_snapshot_normalize (StoredContent.asObj (StoredObj.mk lu none (some d))) =
        (lu, some d)) ∧
    (∀ lu : Option String,
      load_snapshot_normalize (StoredContent.asObj (StoredObj.mk lu none none)) =
        (none, none)) :=
  ⟨fun _ => rfl, fun _ _ _ => rfl, fun _ _ => rfl, fun _ => rfl⟩

theorem mem_upcomingBlock {now h : ℚ} {x g : SportEvent} :
    (g ∈ match x.commence_time with
      | none => [x]
      | some s =>
        match parseDT s with
        | none => [x]
        | some t =>
          if 0 ≤ ((t : ℚ) - now) / 3600 ∧ ((t : ℚ) - now) / 3600 ≤ h
          then [x] else []) ↔
      g = x ∧ (match x.commence_time with
        | none => True
        | some s =>
          match parseDT s with
          | none => True
          | some t =>
            0 ≤ ((t : ℚ) - now) / 3600 ∧ ((t : ℚ) - now) / 3600 ≤ h) := by
  rcases hct : x.commence_time with _ | s
  · simp
  · rcases hp : parseDT s with _ | t
    · simp [hp]
    · by_cases hc : 0 ≤ ((t : ℚ) - now) / 3600 ∧ ((t : ℚ) - now) / 3600 ≤ h
      · simp [hp, hc]
      · simp [hp, hc]

theorem mem_filterUpcomingLoop {now h : ℚ} {g : SportEvent} :
    ∀ {gs : List SportEvent},
      g ∈ filterUpcomingLoop now h gs ↔
        g ∈ gs ∧ (match g.commence_time with
          | none => True
          | some s =>
            match parseDT s with
            | none => True
            | some t =>
              0 ≤ ((t : ℚ) - now) / 3600 ∧ ((t : ℚ) - now) / 3600 ≤ h) := by
  intro gs
  induction gs with
  | nil => simp [filterUpcomingLoop]
  | cons x rest ih =>
    simp only [filterUpcomingLoop, List.mem_append, List.mem_cons, ih]
    constructor
    · rintro (hb | ⟨hm, hc⟩)
      · obtain ⟨rfl, hc⟩ := mem_upcomingBlock.mp hb
        exact ⟨Or.inl rfl, hc⟩
      · exact ⟨Or.inr hm, hc⟩
    · rintro ⟨rfl | hm, hc⟩
      · exact Or.inl (mem_upcomingBlock.mpr ⟨rfl, hc⟩)
      · exact Or.inr ⟨hm, hc⟩

/-- C10: `filter_upcoming_games` returns `[]` for a missing or empty games
argument, and otherwise includes a game exactly when its
`commence_time` parses in the expected format to a start between 0 and
`hours_ahead` hours from now (both ends inclusive), or fails to parse
(including an absent key), in which case the game is always included. -/
theorem filter_upcoming_games_spec :
    (∀ now h : ℚ, filter_upcoming_games now none h = []) ∧
    (∀ now h : ℚ, filter_upcoming_games now (some []) h = []) ∧
    (∀ (now h : ℚ) (gs : List SportEvent) (g : SportEvent),
      g ∈ filter_upcoming_games now (some gs) h ↔
        g ∈ gs ∧ (match g.commence_time with
          | none => True
          | some s =>
            match parseDT s with
            | none => True
            | some t =>
              0 ≤ ((t : ℚ) - now) / 3600 ∧ ((t : ℚ) - now) / 3600 ≤ h)) := by
  refine ⟨fun now h => rfl, fun now h => rfl, fun now h gs g => ?_⟩
  cases gs with
  | nil =>
    rw [show filter_upcoming_games now (some []) h = [] from rfl]
    simp
  | cons x rest =>
    show g ∈ filterUpcomingLoop now h (x :: rest) ↔ _
    exact mem_filterUpcomingLoop

theorem mem_scanBlock {pre_map : List (String × FlatRecord)} {θ : ℚ}
    {k : String} {liveI : FlatRecord} {row : ResultRow} :
    (row ∈ match dictGet k pre_map with
      | some preI =>
        match liveI.line, preI.line with
        | some ll, some pl =>
          if θ ≤ |ll - pl| then [mkActiveRow liveI ll pl] else []
        | _, _ => []
      | none => []) ↔
      ∃ preI ll pl, dictGet k pre_map = some preI ∧ liveI.line = some ll ∧
        preI.line = some pl ∧ θ ≤ |ll - pl| ∧ row = mkActiveRow liveI ll pl := by
  rcases hg : dictGet k pre_map with _ | preI
  · simp [hg]
  · rcases hll : liveI.line with _ | ll
    · simp [hg, hll]
    · rcases hpl : preI.line with _ | pl
      · simp [hg, hll, hpl]
      · by_cases hc : θ ≤ |ll - pl|
        · simp [hg, hll, hpl, hc]
        · simp [hg, hll, hpl, hc]

theorem mem_scannerLoop {pre_map : List (String × FlatRecord)} {θ : ℚ}
    {row : ResultRow} :
    ∀ {lv : List (String × FlatRecord)},
      row ∈ scannerLoop pre_map θ lv ↔
        ∃ k liveI preI ll pl, (k, liveI) ∈ lv ∧ dictGet k pre_map = some preI ∧
          liveI.line = some ll ∧ preI.line = some pl ∧ θ ≤ |ll - pl| ∧
          row = mkActiveRow liveI ll pl := by
  intro lv
  induction lv with
  | nil => simp [scannerLoop]
  | cons e rest ih =>
    obtain ⟨k, liveI⟩ := e
    simp only [scannerLoop, List.mem_append, ih]
    constructor
    · rintro (hb | hrest)
      · obtain ⟨preI, ll, pl, hg, h1, h2, h3, h4⟩ := mem_scanBlock.mp hb
        exact ⟨k, liveI, preI, ll, pl, List.mem_cons_self _ _, hg, h1, h2, h3, h4⟩
      · obtain ⟨k', liveI', preI, ll, pl, hm, hg, h1, h2, h3, h4⟩ := hrest
        exact ⟨k', liveI', preI, ll, pl, List.mem_cons_of_mem _ hm, hg, h1, h2, h3, h4⟩
    · rintro ⟨k', liveI', preI, ll, pl, hm, hg, h1, h2, h3, h4⟩
      rcases List.mem_cons.mp hm with heq | hm'
      · simp only [Prod.mk.injEq] at heq
        obtain ⟨rfl, rfl⟩ := heq
        exact Or.inl (mem_scanBlock.mpr ⟨preI, ll, pl, hg, h1, h2, h3, h4⟩)
      · exact Or.inr ⟨k', liveI', preI, ll, pl, hm', hg, h1, h2, h3, h4⟩

/-- C1: in scanner mode, a matched pair of a live-map record and a
pre-map record under the same identity key with both lines non-null
appears in the result list iff `abs(live.line - pre.line) >= threshold`;
and every scanner result row stems from a live record with a pre-game
counterpart, so a pre-game record with no live counterpart never
appears. -/
theorem scanner_inclusion_law :
    (∀ (pre_map live_map : List (String × FlatRecord)) (θ : ℚ) (k : String)
        (liveI preI : FlatRecord) (ll pl : ℚ),
      (k, liveI) ∈ live_map → dictGet k pre_map = some preI →
      liveI.line = some ll → preI.line = some pl →
      (mkActiveRow liveI ll pl ∈ scanner_results pre_map live_map θ ↔
        θ ≤ |ll - pl|)) ∧
    (∀ (pre_map live_map : List (String × FlatRecord)) (θ : ℚ) (row : ResultRow),
      row ∈ scanner_results pre_map live_map θ →
      ∃ k liveI, (k, liveI) ∈ live_map ∧ (dictGet k pre_map).isSome ∧
        row.item = liveI ∧ row.status = "active") := by
  constructor
  · intro pre live θ k liveI preI ll pl hm hg hll hpl
    constructor
    · intro hrow
      obtain ⟨k', liveI', preI', ll', pl', hm', hg', h1, h2, h3, h4⟩ :=
        mem_scannerLoop.mp hrow
      simp only [mkActiveRow, ResultRow.mk.injEq, LineDisp.num.injEq] at h4
      obtain ⟨-, hLL, hPL, -, -⟩ := h4
      rwa [hLL, hPL]
    · intro hc
      exact mem_scannerLoop.mpr ⟨k, liveI, preI, ll, pl, hm, hg, hll, hpl, hc, rfl⟩
  · intro pre live θ row hrow
    obtain ⟨k, liveI, preI, ll, pl, hm, hg, h1, h2, h3, h4⟩ :=
      mem_scannerLoop.mp hrow
    refine ⟨k, liveI, hm, by simp [hg], ?_, ?_⟩
    · rw [h4]; rfl
    · rw [h4]; rfl

/-- A concrete pre-game record for the C1 witness. -/
def w1Pre : FlatRecord :=
  FlatRecord.mk "Player X" "player_points" (some 20.5) 1.91 (Quote.val 1.95)
    "DraftKings" "H" "A" "A @ H"

/-- A concrete live record for the C1 witness. -/
def w1Live : FlatRecord :=
  FlatRecord.mk "Player X" "player_points" (some 25) 1.88 (Quote.val 1.92)
    "DraftKings" "H" "A" "A @ H"

/-- Witness for C1 at a concrete matched pair (lines 20.5 → 25,
threshold 3). -/
theorem scanner_inclusion_law_witness :
    mkActiveRow w1Live 25 20.5 ∈
        scanner_results [("Player X|player_points", w1Pre)]
          [("Player X|player_points", w1Live)] 3 ↔
      (3 : ℚ) ≤ |25 - 20.5| :=
  scanner_inclusion_law.1 [("Player X|player_points", w1Pre)]
    [("Player X|player_points", w1Live)] 3 "Player X|player_points" w1Live w1Pre
    25 20.5 (List.mem_cons_self _ _) rfl rfl rfl

/-- A pre-game record whose line is null (the provider sent a null
point). -/
def c2PreRec : FlatRecord :=
  FlatRecord.mk "Player X" "player_points" none 1.91 Quote.dash "DraftKings"
    "H" "A" "A @ H"

/-- A live record for the same identity key with a non-null line. -/
def c2LiveRec : FlatRecord := { c2PreRec with line := some 24.5 }

/-- A totals pre-game record with a null line. -/
def c2tPre : TotalsRecord :=
  TotalsRecord.mk "A @ H" "totals" none 1.9 Quote.dash "DraftKings" "H" "A"

/-- The corresponding live totals record. -/
def c2tLive : TotalsRecord := { c2tPre with line := some 224.5 }

/-- C2 evidence: scanner and totals modes exclude a matched pair with a
null line on either side, but search mode evaluates
`live_item['line'] - pre_item['line']` with no null guard, so the same
pair raises a Python `TypeError` there instead of being excluded. -/
theorem search_null_line_raises_type_error :
    (search_results [("Player X|player_points", c2PreRec)]
        [("Player X|player_points", c2LiveRec)] "player x" =
      Except.error "TypeError: unsupported operand type(s) for -") ∧
    (scanner_results [("Player X|player_points", c2PreRec)]
        [("Player X|player_points", c2LiveRec)] 1 = []) ∧
    (totals_results [("A @ H", c2tPre)] [("A @ H", c2tLive)] 1 = []) :=
  ⟨rfl, rfl, rfl⟩

/-- A snapshot record whose player description carries surrounding
whitespace, as provider payloads sometimes do. -/
def lbjPre : FlatRecord :=
  FlatRecord.mk "  LeBron James " "player_points" (some 20.5) 1.91
    (Quote.val 1.95) "DraftKings" "H" "A" "A @ H"

/-- The same player's live record with a clean description and a line
that moved by 10 points. -/
def lbjLive : FlatRecord :=
  FlatRecord.mk "LeBron James" "player_points" (some 30.5) 1.88
    (Quote.val 1.92) "DraftKings" "H" "A" "A @ H"

/-- C4 evidence: the identity key is built from the untrimmed player
description, so `"  LeBron James "` and `"LeBron James"` with the same
market key produce different keys, and the scanner finds no match for
them even though the line moved 10 points against a threshold of 3. -/
theorem identity_key_not_trimmed :
    propKey lbjPre ≠ propKey lbjLive ∧
    scanner_results (buildPropsMap [lbjPre]) (buildPropsMap [lbjLive]) 3 = [] :=
  ⟨by decide, rfl⟩

theorem stringDataInj {s t : String} (h : s.data = t.data) : s = t := by
  cases s
  cases t
  exact congrArg String.mk (by simpa using h)

theorem charListLt_trans : ∀ a b c : List Char,
    charListLt a b = true → charListLt b c = true → charListLt a c = true := by
  intro a
  induction a with
  | nil =>
    intro b c hab hbc
    cases b with
    | nil => simp [charListLt] at hab
    | cons y bs =>
      cases c with
      | nil => simp [charListLt] at hbc
      | cons z cs => simp [charListLt]
  | cons x as ih =>
    intro b c hab hbc
    cases b with
    | nil => simp [charListLt] at hab
    | cons y bs =>
      cases c with
      | nil => simp [charListLt] at hbc
      | cons z cs =>
        simp only [charListLt] at hab hbc ⊢
        by_cases hxy : x = y
        · subst hxy
          rw [if_pos rfl] at hab
          by_cases hxz : x = z
          · subst hxz
            rw [if_pos rfl] at hbc ⊢
            exact ih bs cs hab hbc
          · rw [if_neg hxz] at hbc ⊢
            exact hbc
        · rw [if_neg hxy] at hab
          have hlt : x < y := of_decide_eq_true hab
          by_cases hyz : y = z
          · subst hyz
            rw [if_neg hxy]
            exact decide_eq_true hlt
          · rw [if_neg hyz] at hbc
            have hyz' : y < z := of_decide_eq_true hbc
            have hxz : x < z := lt_trans hlt hyz'
            rw [if_neg (ne_of_lt hxz)]
            exact decide_eq_true hxz

theorem charListLt_connex : ∀ a b : List Char,
    charListLt a b = false → charListLt b a = false → a = b := by
  intro a
  induction a with
  | nil =>
    intro b h1 _
    cases b with
    | nil => rfl
    | cons y bs => simp [charListLt] at h1
  | cons x as ih =>
    intro b h1 h2
    cases b with
    | nil => simp [charListLt] at h2
    | cons y bs =>
      simp only [charListLt] at h1 h2
      by_cases hxy : x = y
      · subst hxy
        rw [if_pos rfl] at h1 h2
        rw [ih bs h1 h2]
      · rw [if_neg hxy] at h1
        rw [if_neg (Ne.symm hxy)] at h2
        have n1 : ¬ x < y := of_decide_eq_false h1
        have n2 : ¬ y < x := of_decide_eq_false h2
        exact absurd (le_antisymm (le_of_not_lt n2) (le_of_not_lt n1)) hxy

theorem propsRowLe_trans : ∀ a b c : ResultRow,
    propsRowLe a b = true → propsRowLe b c = true → propsRowLe a c = true := by
  intro a b c hab hbc
  simp only [propsRowLe, Bool.or_eq_true, Bool.and_eq_true, decide_eq_true_eq]
    at hab hbc ⊢
  rcases hab with h1 | ⟨he1, hi1⟩
  · rcases hbc with h2 | ⟨he2, hi2⟩
    · exact Or.inl (charListLt_trans _ _ _ h1 h2)
    · exact Or.inl (congrArg String.data he2 ▸ h1)
  · rcases hbc with h2 | ⟨he2, hi2⟩
    · refine Or.inl ?_
      rw [congrArg String.data he1]
      exact h2
    · exact Or.inr ⟨he1.trans he2, le_trans hi1 hi2⟩

theorem propsRowLe_total : ∀ a b : ResultRow,
    (propsRowLe a b || propsRowLe b a) = true := by
  intro a b
  simp only [propsRowLe, Bool.or_eq_true, Bool.and_eq_true, decide_eq_true_eq]
  cases h1 : charListLt a.item.player.data b.item.player.data with
  | true => exact Or.inl (Or.inl rfl)
  | false =>
    cases h2 : charListLt b.item.player.data a.item.player.data with
    | true => exact Or.inr (Or.inl rfl)
    | false =>
      have hd : a.item.player = b.item.player :=
        stringDataInj (charListLt_connex _ _ h1 h2)
      rcases le_total (marketIdx a.item.market_key) (marketIdx b.item.market_key)
        with hle | hle
      · exact Or.inl (Or.inr ⟨hd, hle⟩)
      · exact Or.inr (Or.inr ⟨hd.symm, hle⟩)

theorem totalsRowLe_trans : ∀ a b c : TotalsRow,
    totalsRowLe a b = true → totalsRowLe b c = true → totalsRowLe a c = true := by
  intro a b c hab hbc
  simp only [totalsRowLe, decide_eq_true_eq] at hab hbc ⊢
  exact le_trans hbc hab

theorem totalsRowLe_total : ∀ a b : TotalsRow,
    (totalsRowLe a b || totalsRowLe b a) = true := by
  intro a b
  simp only [totalsRowLe, Bool.or_eq_true, decide_eq_true_eq]
  exact (le_total _ _).symm

theorem insertSorted_perm (le : α → α → Bool) (a : α) :
    ∀ l : List α, (insertSorted le a l).Perm (a :: l) := by
  intro l
  induction l with
  | nil => exact List.Perm.refl _
  | cons b bs ih =>
    simp only [insertSorted]
    by_cases h : le a b
    · rw [if_pos h]
    · rw [if_neg h]
      exact (ih.cons b).trans (List.Perm.swap a b bs)

theorem stableSort_perm (le : α → α → Bool) :
    ∀ l : List α, (stableSort le l).Perm l := by
  intro l
  induction l with
  | nil => exact List.Perm.refl _
  | cons x xs ih =>
    exact (insertSorted_perm le x (stableSort le xs)).trans (ih.cons x)

theorem pairwise_insertSorted (le : α → α → Bool)
    (htrans : ∀ a b c, le a b = true → le b c = true → le a c = true)
    (htotal : ∀ a b, (le a b || le b a) = true) (a : α) :
    ∀ l : List α, l.Pairwise (fun x y => le x y = true) →
      (insertSorted le a l).Pairwise (fun x y => le x y = true) := by
  intro l
  induction l with
  | nil => intro _; simp [insertSorted]
  | cons b bs ih =>
    intro h
    obtain ⟨hb, hbs⟩ := List.pairwise_cons.mp h
    simp only [insertSorted]
    by_cases hab : le a b
    · rw [if_pos hab]
      refine List.pairwise_cons.mpr ⟨?_, h⟩
      intro y hy
      rcases List.mem_cons.mp hy with rfl | hy'
      · exact hab
      · exact htrans a b y hab (hb y hy')
    · rw [if_neg hab]
      refine List.pairwise_cons.mpr ⟨?_, ih hbs⟩
      intro y hy
      have hmem := (insertSorted_perm le a bs).mem_iff.mp hy
      rcases List.mem_cons.mp hmem with heq | hy'
      · rw [heq]
        rcases (Bool.or_eq_true _ _).mp (htotal a b) with h' | h'
        · exact absurd h' hab
        · exact h'
      · exact hb y hy'

theorem pairwise_stableSort (le : α → α → Bool)
    (htrans : ∀ a b c, le a b = true → le b c = true → le a c = true)
    (htotal : ∀ a b, (le a b || le b a) = true) :
    ∀ l : List α, (stableSort le l).Pairwise (fun x y => le x y = true) := by
  intro l
  induction l with
  | nil => simp [stableSort]
  | cons x xs ih => exact pairwise_insertSorted le htrans htotal x _ ih

theorem scannerLoop_cons_found {pre : List (String × FlatRecord)} {θ : ℚ}
    {k : String} {liveI preI : FlatRecord} {ll pl : ℚ}
    {rest : List (String × FlatRecord)} (hg : dictGet k pre = some preI)
    (hll : liveI.line = some ll) (hpl : preI.line = some pl) :
    scannerLoop pre θ ((k, liveI) :: rest) =
      (if θ ≤ |ll - pl| then [mkActiveRow liveI ll pl] else []) ++
        scannerLoop pre θ rest := by
  simp only [scannerLoop, hg, hll, hpl]

/-- The claimed sort order for scanner results: descending absolute diff
magnitude (spec-side predicate, compared against the code's order). -/
def resultsSortedByAbsDiffDesc (l : List ResultRow) : Prop :=
  l.Pairwise (fun a b => |b.diff| ≤ |a.diff|)

/-- Totals results sorted by descending absolute diff magnitude. -/
def totalsSortedByAbsDiffDesc (l : List TotalsRow) : Prop :=
  l.Pairwise (fun a b => |b.diff| ≤ |a.diff|)

/-- Props results sorted by player name and then the fixed market
priority ordering (unknown market keys ranked 99, i.e. last). -/
def sortedByPlayerThenMarket (l : List ResultRow) : Prop :=
  l.Pairwise (fun a b => propsRowLe a b = true)

/-- Snapshot record of player Alice (line 25). -/
def aRec3 : FlatRecord :=
  FlatRecord.mk "Alice" "player_points" (some 25) 1.9 Quote.dash "DraftKings"
    "H" "A" "A @ H"

/-- Live record of Alice (line 30, a 5-point move). -/
def aLive3 : FlatRecord := { aRec3 with line := some 30 }

/-- Snapshot record of player Bob (line 30). -/
def bRec3 : FlatRecord := { aRec3 with player := "Bob", line := some 30 }

/-- Live record of Bob (line 40, a 10-point move). -/
def bLive3 : FlatRecord := { bRec3 with line := some 40 }

/-- The pre-game map for the sort counterexample. -/
def cPre3 : List (String × FlatRecord) :=
  [("Alice|player_points", aRec3), ("Bob|player_points", bRec3)]

/-- The live map for the sort counterexample. -/
def cLive3 : List (String × FlatRecord) :=
  [("Alice|player_points", aLive3), ("Bob|player_points", bLive3)]

/-- C3 counterexample: the displayed scanner-mode result list is NOT
sorted by descending absolute diff — with threshold 1, Alice (move 5)
is listed before Bob (move 10) because the props display sort orders by
player name and market priority, not by diff magnitude. -/
theorem scanner_sort_counterexample :
    ¬ resultsSortedByAbsDiffDesc
      (sortPropsResults (scanner_results cPre3 cLive3 1)) := by
  have e1 : scanner_results cPre3 cLive3 1 =
      [mkActiveRow aLive3 30 25, mkActiveRow bLive3 40 30] := by
    show scannerLoop cPre3 1
        (("Alice|player_points", aLive3) :: [("Bob|player_points", bLive3)]) = _
    rw [scannerLoop_cons_found (rfl : dictGet "Alice|player_points" cPre3 = some aRec3)
        (rfl : aLive3.line = some 30) (rfl : aRec3.line = some 25)]
    rw [show scannerLoop cPre3 1 [("Bob|player_points", bLive3)] =
        (if (1 : ℚ) ≤ |40 - 30| then [mkActiveRow bLive3 40 30] else []) ++
          scannerLoop cPre3 1 [] from
      scannerLoop_cons_found (rfl : dictGet "Bob|player_points" cPre3 = some bRec3)
        (rfl : bLive3.line = some 40) (rfl : bRec3.line = some 30)]
    rw [show scannerLoop cPre3 1 [] = [] from rfl]
    norm_num
  rw [e1]
  have e2 : sortPropsResults [mkActiveRow aLive3 30 25, mkActiveRow bLive3 40 30] =
      [mkActiveRow aLive3 30 25, mkActiveRow bLive3 40 30] := by
    simp only [sortPropsResults, stableSort, insertSorted,
      show propsRowLe (mkActiveRow aLive3 30 25) (mkActiveRow bLive3 40 30) = true
        from by decide, if_pos]
  rw [e2]
  unfold resultsSortedByAbsDiffDesc
  rw [List.pairwise_cons]
  intro h
  have := h.1 (mkActiveRow bLive3 40 30) (List.mem_cons_self _ _)
  simp only [mkActiveRow] at this
  norm_num at this

/-- C3 (amended): totals-mode results are displayed sorted by descending
absolute diff magnitude, while scanner-mode and search-mode results share
the props display sort: by player name, then by the fixed market priority
ordering (points, rebounds, assists, then combo markets), with market
keys outside that list ranked 99 and therefore last; both sorts permute
the result set. -/
theorem results_sort_order_amended :
    (∀ rows : List TotalsRow,
      totalsSortedByAbsDiffDesc (sortTotalsResults rows) ∧
        (sortTotalsResults rows).Perm rows) ∧
    (∀ rows : List ResultRow,
      sortedByPlayerThenMarket (sortPropsResults rows) ∧
        (sortPropsResults rows).Perm rows) ∧
    (∀ (pre live : List (String × FlatRecord)) (θ : ℚ),
      sortedByPlayerThenMarket (sortPropsResults (scanner_results pre live θ))) := by
  have hp : ∀ rows : List ResultRow,
      sortedByPlayerThenMarket (sortPropsResults rows) := fun rows =>
    pairwise_stableSort propsRowLe propsRowLe_trans propsRowLe_total rows
  refine ⟨fun rows => ⟨?_, stableSort_perm _ rows⟩,
    fun rows => ⟨hp rows, stableSort_perm _ rows⟩, fun pre live θ => hp _⟩
  have := pairwise_stableSort totalsRowLe totalsRowLe_trans totalsRowLe_total rows
  unfold totalsSortedByAbsDiffDesc
  exact this.imp fun h => by
    simpa only [totalsRowLe, decide_eq_true_eq] using h

theorem except_bind_ok (x : α) (f : α → Except ε β) :
    (Except.ok x >>= f : Except ε β) = f x := rfl

theorem except_bind_error (e : ε) (f : α → Except ε β) :
    (Except.error e >>= f : Except ε β) = Except.error e := rfl

theorem dictGet_mem {k : String} {v : α} :
    ∀ {m : List (String × α)}, dictGet k m = some v → (k, v) ∈ m := by
  intro m
  induction m with
  | nil => intro h; simp [dictGet] at h
  | cons e rest ih =>
    intro h
    obtain ⟨k', v'⟩ := e
    simp only [dictGet] at h
    by_cases hk : k = k'
    · rw [if_pos hk] at h
      subst hk
      rw [← Option.some.inj h]
      exact List.mem_cons_self _ _
    · rw [if_neg hk] at h
      exact List.mem_cons_of_mem _ (ih h)

theorem searchLoop_spec (live_map : List (String × FlatRecord)) (q : String)
    (hlive : ∀ e ∈ live_map, e.1 = propKey e.2) :
    ∀ (pm : List (String × FlatRecord)) (rows : List ResultRow),
      (∀ e ∈ pm, e.1 = propKey e.2) →
      (pm.map Prod.fst).Nodup →
      searchLoop live_map q pm = Except.ok rows →
      ((∀ k preI, (k, preI) ∈ pm →
        hasSubstring (lowerChars q) (lowerChars preI.player) = true →
        (rows.filter (fun r => propKey r.item = k)).length = 1 ∧
        ∀ r ∈ rows, propKey r.item = k →
          (r.status = "active" ↔ (dictGet k live_map).isSome = true) ∧
          (dictGet k live_map = none →
            r.status = "inactive" ∧
            r.live_display = LineDisp.text "No Live Game" ∧ r.diff = 0)) ∧
      (∀ r ∈ rows, ∃ k preI, (k, preI) ∈ pm ∧
        hasSubstring (lowerChars q) (lowerChars preI.player) = true ∧
        propKey r.item = k)) := by
  intro pm
  induction pm with
  | nil =>
    intro rows _ _ hok
    obtain rfl := (Except.ok.inj hok).symm
    exact ⟨fun k preI hmem _ => absurd hmem (List.not_mem_nil _),
      fun r hr => absurd hr (List.not_mem_nil _)⟩
  | cons e rest ih =>
    intro rows hpre hnd hok
    obtain ⟨k0, p0⟩ := e
    have hpre0 : k0 = propKey p0 := hpre (k0, p0) (List.mem_cons_self _ _)
    have hpreR : ∀ x ∈ rest, x.1 = propKey x.2 :=
      fun x hx => hpre x (List.mem_cons_of_mem _ hx)
    have hnd' := List.nodup_cons.mp
      (show (k0 :: rest.map Prod.fst).Nodup from hnd)
    have hndR : (rest.map Prod.fst).Nodup := hnd'.2
    have hne : ∀ k preI, (k, preI) ∈ rest → k ≠ k0 := by
      intro k preI hm heq
      exact hnd'.1 (heq ▸ List.mem_map_of_mem Prod.fst hm)
    by_cases hm0 : hasSubstring (lowerChars q) (lowerChars p0.player) = true
    · rcases hlk : dictGet k0 live_map with _ | liveI
      · -- no live counterpart: an inactive row is prepended
        simp only [searchLoop, if_pos hm0, hlk] at hok
        rcases hr : searchLoop live_map q rest with e' | rs
        · rw [hr, except_bind_error] at hok
          exact Except.noConfusion hok
        · rw [hr, except_bind_ok] at hok
          obtain rfl := (Except.ok.inj hok).symm
          obtain ⟨IH1, IH2⟩ := ih rs hpreR hndR hr
          have hheadkey : propKey (mkInactiveRow p0).item = k0 := hpre0.symm
          have hrs_ne : ∀ r ∈ rs, propKey r.item ≠ k0 := by
            intro r hrr hcontra
            obtain ⟨k', preI', hmem', _, hpk'⟩ := IH2 r hrr
            exact hne k' preI' hmem' (by rw [← hpk', hcontra])
          constructor
          · intro k preI hmem hmatch
            rcases List.mem_cons.mp hmem with heq | hmem'
            · simp only [Prod.mk.injEq] at heq
              constructor
              · rw [List.filter_cons_of_pos (by simp [hheadkey, heq.1])]
                rw [List.filter_eq_nil_iff.mpr (by
                  intro r hrr
                  simp only [decide_eq_true_eq]
                  rw [heq.1]
                  exact hrs_ne r hrr)]
                rfl
              · intro r hrr hpk
                rcases List.mem_cons.mp hrr with rfl | hrr'
                · refine ⟨?_, fun _ => ⟨rfl, rfl, rfl⟩⟩
                  rw [heq.1, hlk]
                  simp [mkInactiveRow]
                · exact absurd (hpk.trans heq.1) (hrs_ne r hrr')
            · have hkne : k ≠ k0 := hne k preI hmem'
              obtain ⟨hc, hs⟩ := IH1 k preI hmem' hmatch
              constructor
              · rw [List.filter_cons_of_neg (by
                  simp only [decide_eq_true_eq, hheadkey]
                  exact fun hcontra => hkne hcontra.symm)]
                exact hc
              · intro r hrr hpk
                rcases List.mem_cons.mp hrr with rfl | hrr'
                · exact absurd (hheadkey.symm.trans hpk) (fun h => hkne h.symm)
                · exact hs r hrr' hpk
          · intro r hrr
            rcases List.mem_cons.mp hrr with rfl | hrr'
            · exact ⟨k0, p0, List.mem_cons_self _ _, hm0, hheadkey⟩
            · obtain ⟨k, preI, hmem, hmatch, hpk⟩ := IH2 r hrr'
              exact ⟨k, preI, List.mem_cons_of_mem _ hmem, hmatch, hpk⟩
      · -- live counterpart found
        have hkey : k0 = propKey liveI := hlive (k0, liveI) (dictGet_mem hlk)
        rcases hll : liveI.line with _ | ll
        · simp only [searchLoop, if_pos hm0, hlk, hll] at hok
          exact Except.noConfusion hok
        · rcases hpl : p0.line with _ | pl
          · simp only [searchLoop, if_pos hm0, hlk, hll, hpl] at hok
            exact Except.noConfusion hok
          · simp only [searchLoop, if_pos hm0, hlk, hll, hpl] at hok
            rcases hr : searchLoop live_map q rest with e' | rs
            · rw [hr, except_bind_error] at hok
              exact Except.noConfusion hok
            · rw [hr, except_bind_ok] at hok
              obtain rfl := (Except.ok.inj hok).symm
              obtain ⟨IH1, IH2⟩ := ih rs hpreR hndR hr
              have hheadkey : propKey (mkActiveRow liveI ll pl).item = k0 := hkey.symm
              have hrs_ne : ∀ r ∈ rs, propKey r.item ≠ k0 := by
                intro r hrr hcontra
                obtain ⟨k', preI', hmem', _, hpk'⟩ := IH2 r hrr
                exact hne k' preI' hmem' (by rw [← hpk', hcontra])
              constructor
              · intro k preI hmem hmatch
                rcases List.mem_cons.mp hmem with heq | hmem'
                · simp only [Prod.mk.injEq] at heq
                  constructor
                  · rw [List.filter_cons_of_pos (by simp [hheadkey, heq.1])]
                    rw [List.filter_eq_nil_iff.mpr (by
                      intro r hrr
                      simp only [decide_eq_true_eq]
                      rw [heq.1]
                      exact hrs_ne r hrr)]
                    rfl
                  · intro r hrr hpk
                    rcases List.mem_cons.mp hrr with rfl | hrr'
                    · constructor
                      · rw [heq.1, hlk]
                        simp [mkActiveRow]
                      · intro hcontra
                        rw [heq.1, hlk] at hcontra
                        exact Option.noConfusion hcontra
                    · exact absurd (hpk.trans heq.1) (hrs_ne r hrr')
                · have hkne : k ≠ k0 := hne k preI hmem'
                  obtain ⟨hc, hs⟩ := IH1 k preI hmem' hmatch
                  constructor
                  · rw [List.filter_cons_of_neg (by
                      simp only [decide_eq_true_eq, hheadkey]
                      exact fun hcontra => hkne hcontra.symm)]
                    exact hc
                  · intro r hrr hpk
                    rcases List.mem_cons.mp hrr with rfl | hrr'
                    · exact absurd (hheadkey.symm.trans hpk) (fun h => hkne h.symm)
                    · exact hs r hrr' hpk
              · intro r hrr
                rcases List.mem_cons.mp hrr with rfl | hrr'
                · exact ⟨k0, p0, List.mem_cons_self _ _, hm0, hheadkey⟩
                · obtain ⟨k, preI, hmem, hmatch, hpk⟩ := IH2 r hrr'
                  exact ⟨k, preI, List.mem_cons_of_mem _ hmem, hmatch, hpk⟩
    · -- head does not match the query
      simp only [searchLoop, if_neg hm0] at hok
      obtain ⟨IH1, IH2⟩ := ih rows hpreR hndR hok
      constructor
      · intro k preI hmem hmatch
        rcases List.mem_cons.mp hmem with heq | hmem'
        · simp only [Prod.mk.injEq] at heq
          rw [heq.2] at hmatch
          exact absurd hmatch hm0
        · exact IH1 k preI hmem' hmatch
      · intro r hrr
        obtain ⟨k, preI, hmem, hmatch, hpk⟩ := IH2 r hrr
        exact ⟨k, preI, List.mem_cons_of_mem _ hmem, hmatch, hpk⟩

/-- C9: in search mode with a non-empty query, over maps keyed by the
identity key with distinct pre-map keys, when the search run succeeds
(no null-line TypeError, cf. the C2 finding), every pre-map record whose
player contains the query case-insensitively contributes exactly one
result row (attributed by its identity key), that row's status is
"active" iff a live record with the same identity key exists, a record
with no live counterpart gets status "inactive" with the non-numeric
"No Live Game" placeholder and a diff of exactly 0, and every result row
stems from some matching pre-map record. -/
theorem search_completeness
    (pre_map live_map : List (String × FlatRecord)) (q : String)
    (rows : List ResultRow)
    (hq : q ≠ "")
    (hpre : ∀ e ∈ pre_map, e.1 = propKey e.2)
    (hlive : ∀ e ∈ live_map, e.1 = propKey e.2)
    (hnd : (pre_map.map Prod.fst).Nodup)
    (hok : search_results pre_map live_map q = Except.ok rows) :
    (∀ k preI, (k, preI) ∈ pre_map →
      hasSubstring (lowerChars q) (lowerChars preI.player) = true →
      (rows.filter (fun r => propKey r.item = k)).length = 1 ∧
      ∀ r ∈ rows, propKey r.item = k →
        (r.status = "active" ↔ (dictGet k live_map).isSome = true) ∧
        (dictGet k live_map = none →
          r.status = "inactive" ∧
          r.live_display = LineDisp.text "No Live Game" ∧ r.diff = 0)) ∧
    (∀ r ∈ rows, ∃ k preI, (k, preI) ∈ pre_map ∧
      hasSubstring (lowerChars q) (lowerChars preI.player) = true ∧
      propKey r.item = k) := by
  unfold search_results at hok
  rw [if_neg hq] at hok
  exact searchLoop_spec live_map q hlive pre_map rows hpre hnd hok

/-- Pre-game record of Player X for the C9 witness. -/
def wPreX : FlatRecord :=
  FlatRecord.mk "Player X" "player_points" (some 20.5) 1.91 (Quote.val 1.95)
    "DraftKings" "H" "A" "A @ H"

/-- Pre-game record of Player Y (no live counterpart) for the C9
witness. -/
def wPreY : FlatRecord :=
  FlatRecord.mk "Player Y" "player_points" (some 10.5) 1.9 (Quote.val 1.9)
    "DraftKings" "H" "A" "A @ H"

/-- Live record of Player X for the C9 witness. -/
def wLiveX : FlatRecord := { wPreX with line := some 25 }

/-- The C9 witness pre-game map. -/
def wPreMap : List (String × FlatRecord) :=
  [("Player X|player_points", wPreX), ("Player Y|player_points", wPreY)]

/-- The C9 witness live map. -/
def wLiveMap : List (String × FlatRecord) :=
  [("Player X|player_points", wLiveX)]

/-- The rows the search produces on the C9 witness data. -/
def wRows : List ResultRow :=
  [mkActiveRow wLiveX 25 20.5, mkInactiveRow wPreY]

/-- Witness for C9 on concrete data: query "player" matches both players;
Player X joins their live record, Player Y falls back to the inactive
placeholder row. -/
theorem search_completeness_witness :
    (∀ k preI, (k, preI) ∈ wPreMap →
      hasSubstring (lowerChars "player") (lowerChars preI.player) = true →
      (wRows.filter (fun r => propKey r.item = k)).length = 1 ∧
      ∀ r ∈ wRows, propKey r.item = k →
        (r.status = "active" ↔ (dictGet k wLiveMap).isSome = true) ∧
        (dictGet k wLiveMap = none →
          r.status = "inactive" ∧
          r.live_display = LineDisp.text "No Live Game" ∧ r.diff = 0)) ∧
    (∀ r ∈ wRows, ∃ k preI, (k, preI) ∈ wPreMap ∧
      hasSubstring (lowerChars "player") (lowerChars preI.player) = true ∧
      propKey r.item = k) :=
  search_completeness wPreMap wLiveMap "player" wRows (by decide) (by decide)
    (by decide) (by decide) rfl
